import Mathlib

/-!
Shallow embedding of the trust-and-execution core of the azure-ai-cli
repository: the command risk classifier (internal/executor/classifier.go),
the permission policy (PermissionManager), the bounded executor
(internal/executor/executor.go) and the tool-calling orchestration loop
(cmd/interactive.go), together with theorems settling the frozen claims
about them.

Go strings are modelled as Lean `String` / `List Char`; the Go regular
expressions of the classifier are embedded as hand-written matchers with
the same matching semantics (unanchored search, `^`-anchored prefixes,
RE2 `\s` character class, `.` not matching a newline).
-/

namespace AzCli

/-! ## Character classes and string helpers

`goIsSpace` models Go `unicode.IsSpace` (used by `strings.TrimSpace` and
`strings.Fields`); `reIsSpace` models the RE2 character class `\s`,
which is the smaller set `[\t\n\f\r ]`. -/

def goSpaceChars : List Char :=
  ['\t', '\n', '\x0b', '\x0c', '\r', ' ',
   '\u0085', '\u00a0', '\u1680', '\u2000', '\u2001', '\u2002',
   '\u2003', '\u2004', '\u2005', '\u2006', '\u2007', '\u2008',
   '\u2009', '\u200a', '\u2028', '\u2029', '\u202f', '\u205f',
   '\u3000']

def goIsSpace (c : Char) : Bool := goSpaceChars.contains c

def reSpaceChars : List Char := ['\t', '\n', '\x0c', '\r', ' ']

def reIsSpace (c : Char) : Bool := reSpaceChars.contains c

/-- Model of Go `strings.TrimSpace` on the character list of a string. -/
def trimSpace (s : List Char) : List Char :=
  ((s.dropWhile goIsSpace).reverse.dropWhile goIsSpace).reverse

/-- Accumulator-style helper for `goFields` (structural recursion). -/
def goFieldsAux : List Char → List Char → List (List Char)
  | [], acc => if acc = [] then [] else [acc.reverse]
  | c :: cs, acc =>
    if goIsSpace c then
      if acc = [] then goFieldsAux cs [] else acc.reverse :: goFieldsAux cs []
    else goFieldsAux cs (c :: acc)

/-- Model of Go `strings.Fields`: split around runs of whitespace. -/
def goFields (s : List Char) : List (List Char) := goFieldsAux s []

/-! ## Regex-pattern matchers

Each Go regexp of classifier.go is embedded as a matcher that decides
whether the pattern matches starting exactly at the head of the list;
`existsSuffix` turns that into unanchored `MatchString` search.  The
whitespace quantifiers are implemented by maximal munch, which is
equivalent to the regex semantics here because in every pattern the
token following `\s+`/`\s*`/`[rf]*` can never itself be consumed by the
quantifier (the relevant character sets are disjoint). -/

def existsSuffix (p : List Char → Bool) : List Char → Bool
  | [] => p []
  | c :: cs => p (c :: cs) || existsSuffix p cs

/-- Consume the literal `w` from the front of `s`, if present. -/
def dropLit (w : String) (s : List Char) : Option (List Char) :=
  if w.toList.isPrefixOf s then some (s.drop w.toList.length) else none

/-- Continue matching with `k` when the previous step succeeded. -/
def after (o : Option (List Char)) (k : List Char → Bool) : Bool :=
  match o with
  | some s => k s
  | none => false

/-- Consume `\s+` (at least one RE2-whitespace character). -/
def dropSpaces1 (s : List Char) : Option (List Char) :=
  match s with
  | [] => none
  | c :: cs => if reIsSpace c then some (cs.dropWhile reIsSpace) else none

/-- Match `.*` followed by the continuation `k`: some split position is
reachable without crossing a newline. -/
def dotStarThen (k : List Char → Bool) : List Char → Bool
  | [] => k []
  | c :: cs => k (c :: cs) || (c != '\n' && dotStarThen k cs)

/-- Unanchored substring search for a literal. -/
def hasSubstr (w : String) (s : List Char) : Bool :=
  existsSuffix (fun t => (dropLit w t).isSome) s

/-- Tail of the pattern `rm\s+(-[rf]*\s+)?/` after `rm\s+`. -/
def rmTailAt (s : List Char) : Bool :=
  (dropLit "/" s).isSome ||
    after (dropLit "-" s) (fun t =>
      after (dropSpaces1 (t.dropWhile (fun c => c == 'r' || c == 'f'))) (fun u =>
        (dropLit "/" u).isSome))

/-- Pattern `rm\s+(-[rf]*\s+)?/` matched at the head of the list. -/
def rmPatAt (s : List Char) : Bool :=
  after (dropLit "rm" s) (fun t => after (dropSpaces1 t) rmTailAt)

/-- Pattern `dd\s+if=` matched at the head of the list. -/
def ddPatAt (s : List Char) : Bool :=
  after (dropLit "dd" s) (fun t => after (dropSpaces1 t) (fun u => (dropLit "if=" u).isSome))

/-- Pattern `\|\s*(sh|bash|zsh)` matched at the head of the list. -/
def pipeShellAt (s : List Char) : Bool :=
  after (dropLit "|" s) (fun t =>
    let u := t.dropWhile reIsSpace
    (dropLit "sh" u).isSome || (dropLit "bash" u).isSome || (dropLit "zsh" u).isSome)

/-- Pattern `curl.*\|\s*(sh|bash|zsh)` matched at the head of the list. -/
def curlPatAt (s : List Char) : Bool :=
  after (dropLit "curl" s) (dotStarThen pipeShellAt)

/-- Pattern `wget.*\|\s*(sh|bash|zsh)` matched at the head of the list. -/
def wgetPatAt (s : List Char) : Bool :=
  after (dropLit "wget" s) (dotStarThen pipeShellAt)

/-- Pattern `>\s*/dev/sd` matched at the head of the list. -/
def redirPatAt (s : List Char) : Bool :=
  after (dropLit ">" s) (fun t => (dropLit "/dev/sd" (t.dropWhile reIsSpace)).isSome)

/-- Pattern `chmod.*777` matched at the head of the list. -/
def chmodPatAt (s : List Char) : Bool :=
  after (dropLit "chmod" s) (dotStarThen (fun t => (dropLit "777" t).isSome))

/-- Pattern `chown.*-R\s+` matched at the head of the list. -/
def chownPatAt (s : List Char) : Bool :=
  after (dropLit "chown" s)
    (dotStarThen (fun t => after (dropLit "-R" t) (fun u => (dropSpaces1 u).isSome)))

/-- Pattern `eval.*\$` matched at the head of the list. -/
def evalPatAt (s : List Char) : Bool :=
  after (dropLit "eval" s) (dotStarThen (fun t => (dropLit "$" t).isSome))

/-- Disjunction over `dangerousPatterns` of classifier.go, in source
order (the fork-bomb literal `:(){` is written with an escaped brace). -/
def dangerousMatch (s : List Char) : Bool :=
  existsSuffix rmPatAt s || hasSubstr "sudo" s || existsSuffix ddPatAt s ||
    hasSubstr "mkfs" s || hasSubstr ":()\x7b" s || existsSuffix curlPatAt s ||
    existsSuffix wgetPatAt s || existsSuffix redirPatAt s ||
    existsSuffix chmodPatAt s || existsSuffix chownPatAt s ||
    existsSuffix evalPatAt s

/-- One `^prog\s+(verb1|verb2|...)` safe sub-command pattern, anchored at
the start of the string. -/
def subcmdPatAt (prog : String) (verbs : List String) (s : List Char) : Bool :=
  after (dropLit prog s) (fun t =>
    after (dropSpaces1 t) (fun u => verbs.any (fun v => (dropLit v u).isSome)))

/-- Disjunction over the `safePatterns` of classifier.go (all are
anchored with `^`, so they are tested only at the start). -/
def safePatternMatch (s : List Char) : Bool :=
  subcmdPatAt "git" ["status", "log", "diff", "branch", "show", "remote"] s ||
    subcmdPatAt "npm" ["list", "ls", "view", "info", "outdated"] s ||
    subcmdPatAt "pip" ["list", "show", "freeze"] s ||
    subcmdPatAt "cargo" ["tree", "search", "check"] s ||
    subcmdPatAt "go" ["list", "version", "env"] s ||
    subcmdPatAt "docker" ["ps", "images", "inspect", "logs"] s ||
    subcmdPatAt "kubectl" ["get", "describe", "logs"] s

/-! ## Classifier (internal/executor/classifier.go) -/

inductive RiskLevel where
  | Safe
  | NeedsConfirm
  | Dangerous
deriving DecidableEq, Repr

/-- The `safeCommands` list of classifier.go, in source order. -/
def safeCommands : List String :=
  ["ls", "cat", "pwd", "echo", "head", "tail", "grep", "find",
   "which", "whoami", "date", "wc", "sort", "uniq", "diff",
   "env", "printenv", "df", "du", "ps", "top", "tree",
   "file", "stat", "basename", "dirname", "realpath"]

/-- Body of `ClassifyCommand` after `strings.TrimSpace`. -/
def classifyTrimmed (s : List Char) : RiskLevel :=
  if s = [] then .Dangerous
  else if dangerousMatch s then .Dangerous
  else
    match goFields s with
    | [] => .Dangerous
    | firstWord :: _ =>
      if safeCommands.any (fun w => w.toList == firstWord) then .Safe
      else if safePatternMatch s then .Safe
      else .NeedsConfirm

/-- Model of `ClassifyCommand` of classifier.go. -/
def ClassifyCommand (cmd : String) : RiskLevel :=
  classifyTrimmed (trimSpace cmd.toList)

/-! ## Permission policy (PermissionManager) -/

structure PermissionManager where
  alwaysAllow : List String
  dangerousEnabled : Bool
  autoAllowReads : Bool
deriving DecidableEq, Repr

/-- Model of `NewPermissionManager`: empty allowlist, dangerous mode
off, auto-allow of safe reads on. -/
def NewPermissionManager : PermissionManager :=
  ⟨[], false, true⟩

/-- The `(allowed, needsConfirm, reason)` triple returned by
`CheckPermission`. -/
structure Decision where
  allowed : Bool
  needsConfirm : Bool
  reason : String
deriving DecidableEq, Repr

/-- Model of `PermissionManager.CheckPermission`.  The dead
`return false, true, "Unknown command type"` after the exhaustive Go
switch has no counterpart, the Lean match being total. -/
def CheckPermission (pm : PermissionManager) (cmd : String) : Decision :=
  if pm.alwaysAllow.contains cmd then
    ⟨true, false, "Previously approved by user"⟩
  else
    match ClassifyCommand cmd with
    | .Safe =>
      if pm.autoAllowReads then ⟨true, false, "Safe read-only command"⟩
      else ⟨false, true, "Needs confirmation"⟩
    | .NeedsConfirm => ⟨false, true, "Command may modify system state"⟩
    | .Dangerous =>
      if pm.dangerousEnabled then
        ⟨false, true, "Dangerous command (requires explicit confirmation)"⟩
      else ⟨false, false, "Dangerous command blocked (use /allow-dangerous to enable)"⟩

/-- Model of `PermissionManager.AddToAllowlist` (map insertion becomes
list cons; only membership is ever observed). -/
def AddToAllowlist (pm : PermissionManager) (cmd : String) : PermissionManager :=
  { pm with alwaysAllow := cmd :: pm.alwaysAllow }

/-- Model of `PermissionManager.EnableDangerous`. -/
def EnableDangerous (pm : PermissionManager) : PermissionManager :=
  { pm with dangerousEnabled := true }

/-- Model of `PermissionManager.DisableDangerous`. -/
def DisableDangerous (pm : PermissionManager) : PermissionManager :=
  { pm with dangerousEnabled := false }

/-- Model of `PermissionManager.SetAutoAllowReads`. -/
def SetAutoAllowReads (pm : PermissionManager) (enabled : Bool) : PermissionManager :=
  { pm with autoAllowReads := enabled }

/-- Model of `PermissionManager.ClearAllowlist`. -/
def ClearAllowlist (pm : PermissionManager) : PermissionManager :=
  { pm with alwaysAllow := [] }

/-- The policy mutators, as a value type, so that claims about operation
sequences ("no clearAllowlist since") can be stated. -/
inductive PMOp where
  | add (cmd : String)
  | enable
  | disable
  | setReads (b : Bool)
  | clear
deriving DecidableEq, Repr

def applyOp (pm : PermissionManager) : PMOp → PermissionManager
  | .add cmd => AddToAllowlist pm cmd
  | .enable => EnableDangerous pm
  | .disable => DisableDangerous pm
  | .setReads b => SetAutoAllowReads pm b
  | .clear => ClearAllowlist pm

def applyOps (pm : PermissionManager) (ops : List PMOp) : PermissionManager :=
  ops.foldl applyOp pm

/-! ## Bounded executor (internal/executor/executor.go)

`Executor.Execute` spawns `sh -c command` under a context carrying a
30-second timeout and inspects the error of `cmd.CombinedOutput()`.
That subprocess interaction is outside the program; it is modelled as a
`RunOutcome` input: the combined output, the Go error value returned by
`CombinedOutput` (either an `*exec.ExitError` carrying an exit code, or
some other error), and the elapsed wall-clock time recorded by
`time.Since(start)` (in milliseconds). -/

inductive GoError where
  | exitError (code : Int)
  | other
deriving DecidableEq, Repr

structure RunOutcome where
  output : String
  err : Option GoError
  elapsedMs : Nat
deriving DecidableEq, Repr

structure ExecutionResult where
  command : String
  output : String
  error : Option GoError
  exitCode : Int
  durationMs : Nat
deriving DecidableEq, Repr

/-- The default 30-second timeout of `NewExecutor`, in milliseconds. -/
def executorTimeoutMs : Nat := 30000

/-- Model of `Executor.Execute`: builds the result from the subprocess
outcome.  The exit-code branch mirrors the Go source: an `ExitError`
yields its code, a nil error yields 0, any other error yields -1; the
function-level error is always nil (`return result, nil`). -/
def Execute (outcome : RunOutcome) (command : String) : ExecutionResult × Option GoError :=
  let result : ExecutionResult :=
    { command := command
      output := outcome.output
      error := outcome.err
      exitCode :=
        match outcome.err with
        | some (.exitError c) => c
        | none => 0
        | some .other => -1
      durationMs := outcome.elapsedMs }
  (result, none)

/-- Model of `ExecutionResult.FormatResult`. -/
def FormatResult (r : ExecutionResult) : String :=
  if r.error.isSome && r.exitCode != 0 then
    "Command failed with exit code " ++ toString r.exitCode ++ ":\n" ++ r.output
  else r.output

/-- Model of `ExecutionResult.IsSuccess`. -/
def IsSuccess (r : ExecutionResult) : Bool := r.exitCode == 0

/-- Environment model of a run that exceeded its timeout, from the
documented semantics of `exec.CommandContext`/`CombinedOutput`: the
process is killed when the deadline expires, so `CombinedOutput` returns
a non-nil error — an `ExitError` whose `ExitCode()` is -1 (killed by
signal) or a non-`ExitError` error — and the recorded elapsed time is at
least the timeout. -/
def TimedOut (outcome : RunOutcome) : Prop :=
  (outcome.err = some (.exitError (-1)) ∨ outcome.err = some .other) ∧
    executorTimeoutMs ≤ outcome.elapsedMs

/-! ## Agent orchestrator (cmd/interactive.go)

`sendInteractiveMessageWithTools` loops: query the model, and while the
reply carries tool calls, append one assistant message with all the
calls and then process each call in order.  The external collaborators
are modelled as inputs: the model transport as a script of replies (one
per request), the confirmation prompt and the subprocess as functions.
The `json.Unmarshal` of a call's argument payload is modelled by the
`args` field: `none` is a payload that fails to parse.  Besides the
produced messages, the round processing also records which commands
were permission-checked and which were executed, so that claims about
collaborator invocations can be stated. -/

structure Args where
  command : String
  reasoning : String
deriving DecidableEq, Repr

structure ToolCall where
  id : String
  name : String
  args : Option Args
deriving DecidableEq, Repr

/-- Model of api.Message: role, text content, tool calls of an assistant
message, and the answered tool-call id of a tool message (the omitempty
JSON fields default to empty). -/
structure Message where
  role : String
  content : String
  toolCalls : List ToolCall
  toolCallID : String
deriving DecidableEq, Repr

def mkToolMsg (cid content : String) : Message := ⟨"tool", content, [], cid⟩

def mkAssistantMsg (calls : List ToolCall) : Message := ⟨"assistant", "", calls, ""⟩

def mkUserMsg (input : String) : Message := ⟨"user", input, [], ""⟩

def mkAssistantTextMsg (content : String) : Message := ⟨"assistant", content, [], ""⟩

/-- External collaborators of the loop: `confirm` models
`display.AskCommandConfirmation (command, reasoning) → (allow, always)`;
`run` models the subprocess spawned by `Executor.Execute`. -/
structure Env where
  confirm : String → String → Bool × Bool
  run : String → RunOutcome

/-- One model reply: `success calls content` abstracts a response whose
choice carries the given tool calls (`HasToolCalls` iff `calls ≠ []`)
and text content; `failure` is a transport error. -/
inductive ModelReply where
  | success (calls : List ToolCall) (content : String)
  | failure

/-- State produced by processing tool calls of one round: the updated
permission manager, the appended tool messages, and the traces of
executed and permission-checked commands. -/
structure RoundTrace where
  pm : PermissionManager
  msgs : List Message
  executed : List String
  checked : List String
deriving DecidableEq, Repr

/-- The execution tail of one tool call (after permission or
confirmation granted): run the command and format the tool message the
way the Go source does. -/
def execStep (env : Env) (pm : PermissionManager) (cid command : String) : RoundTrace :=
  let p := Execute (env.run command) command
  let toolResult :=
    if p.2.isSome || !(IsSuccess p.1) then FormatResult p.1
    else if p.1.output == "" then "Command executed successfully (no output)"
    else p.1.output
  ⟨pm, [mkToolMsg cid toolResult], [command], [command]⟩

/-- Model of the per-call body of `sendInteractiveMessageWithTools`:
only calls named "execute_command" are handled; a malformed argument
payload skips the call; a hard block or user denial appends a tool
message without executing; an "always" answer grows the allowlist. -/
def processCall (env : Env) (pm : PermissionManager) (c : ToolCall) : RoundTrace :=
  if c.name == "execute_command" then
    match c.args with
    | none => ⟨pm, [], [], []⟩
    | some a =>
      let d := CheckPermission pm a.command
      if !d.allowed && !d.needsConfirm then
        ⟨pm, [mkToolMsg c.id ("Command blocked: " ++ d.reason)], [], [a.command]⟩
      else if d.needsConfirm then
        let ans := env.confirm a.command a.reasoning
        if !ans.1 then
          ⟨pm, [mkToolMsg c.id "Command execution denied by user"], [], [a.command]⟩
        else
          let pm2 := if ans.2 then AddToAllowlist pm a.command else pm
          let t := execStep env pm2 c.id a.command
          ⟨t.pm, t.msgs, t.executed, [a.command]⟩
      else
        let t := execStep env pm c.id a.command
        ⟨t.pm, t.msgs, t.executed, [a.command]⟩
  else ⟨pm, [], [], []⟩

/-- Process the tool calls of one round in the order received,
threading the permission manager through (an "always" approval is
visible to the later calls of the same round). -/
def processCalls (env : Env) (pm : PermissionManager) : List ToolCall → RoundTrace
  | [] => ⟨pm, [], [], []⟩
  | c :: cs =>
    let t1 := processCall env pm c
    let t2 := processCalls env t1.pm cs
    ⟨t2.pm, t1.msgs ++ t2.msgs, t1.executed ++ t2.executed, t1.checked ++ t2.checked⟩

/-- Result of `sendInteractiveMessageWithTools`: final conversation,
permission state, `some content` on normal termination or `none` on a
transport error, and the accumulated traces. -/
structure LoopResult where
  pm : PermissionManager
  msgs : List Message
  outcome : Option String
  executed : List String
  checked : List String

/-- Model of `sendInteractiveMessageWithTools`.  Each model request
consumes the next scripted reply (an exhausted script counts as a
transport failure).  On a transport error the messages written so far
remain — the Go function mutates the caller's slice through a pointer
and returns only the error. -/
def sendWithTools (env : Env) : List ModelReply → PermissionManager → List Message → LoopResult
  | [], pm, msgs => ⟨pm, msgs, none, [], []⟩
  | reply :: rest, pm, msgs =>
    match reply with
    | .failure => ⟨pm, msgs, none, [], []⟩
    | .success calls content =>
      if calls.isEmpty then ⟨pm, msgs, some content, [], []⟩
      else
        let t := processCalls env pm calls
        let r := sendWithTools env rest t.pm ((msgs ++ [mkAssistantMsg calls]) ++ t.msgs)
        ⟨r.pm, r.msgs, r.outcome, t.executed ++ r.executed, t.checked ++ r.checked⟩

/-- Model of the regular-chat branch of `InteractiveSession.executor`
(nonempty input, not a slash command, web search off): append the user
message, run the tool loop, and on error truncate the last message of
the (possibly grown) conversation; on success append the assistant
reply unless it is empty. -/
def sessionTurn (env : Env) (script : List ModelReply) (pm : PermissionManager)
    (msgs : List Message) (input : String) : PermissionManager × List Message :=
  let r := sendWithTools env script pm (msgs ++ [mkUserMsg input])
  match r.outcome with
  | none => (r.pm, r.msgs.dropLast)
  | some content =>
    (r.pm, if content == "" then r.msgs else r.msgs ++ [mkAssistantTextMsg content])

/-! ## Helper lemmas -/

/-- Allowlist membership survives every policy operation except an
explicit clear. -/
theorem contains_applyOps (pm : PermissionManager) (ops : List PMOp) (X : String)
    (hclear : PMOp.clear ∉ ops) (h : pm.alwaysAllow.contains X = true) :
    (applyOps pm ops).alwaysAllow.contains X = true := by
  induction ops generalizing pm with
  | nil => simpa [applyOps] using h
  | cons op rest ih =>
    have hclear' : PMOp.clear ∉ rest := fun hm => hclear (List.mem_cons_of_mem _ hm)
    have hmem : X ∈ pm.alwaysAllow := by simpa using h
    have hstep : (applyOp pm op).alwaysAllow.contains X = true := by
      cases op with
      | add y =>
        simp only [applyOp, AddToAllowlist, List.contains_cons]
        simp [hmem]
      | enable => simpa [applyOp, EnableDangerous] using h
      | disable => simpa [applyOp, DisableDangerous] using h
      | setReads b => simpa [applyOp, SetAutoAllowReads] using h
      | clear => exact absurd (List.mem_cons_self _ _) hclear
    simpa [applyOps, List.foldl_cons] using ih (applyOp pm op) hclear' hstep

/-- Every entry of the fixed safe-utility list, taken as a whole
command, classifies as Safe (checked by evaluation). -/
theorem classifyTrimmed_safeCommands :
    ∀ w ∈ safeCommands, classifyTrimmed w.toList = RiskLevel.Safe := by decide

/-! ## Claim theorems: permission policy -/

/-- Claim C2, counterexample: the code's reason string is
"Previously approved by user" (capital P), so the decision triple the
claim states, with the lowercase reason, is not what checkPermission
returns for an allowlisted command. -/
theorem c2_counterexample :
    CheckPermission (AddToAllowlist NewPermissionManager "sudo rm -rf /") "sudo rm -rf /" ≠
      ⟨true, false, "previously approved by user"⟩ := by decide

/-- Claim C2 (amended): after addToAllowlist(X), and any further policy
operations none of which is clearAllowlist, checkPermission(X) returns
allowed, no confirmation, with reason "Previously approved by user",
regardless of X's classification (including Dangerous X). -/
theorem c2_amended_allowlist_overrides_classification
    (pm : PermissionManager) (X : String) (ops : List PMOp)
    (hclear : PMOp.clear ∉ ops) :
    CheckPermission (applyOps (AddToAllowlist pm X) ops) X =
      ⟨true, false, "Previously approved by user"⟩ := by
  have h0 : (AddToAllowlist pm X).alwaysAllow.contains X = true := by
    simp [AddToAllowlist]
  have h := contains_applyOps (AddToAllowlist pm X) ops X hclear h0
  have h' : X ∈ (applyOps (AddToAllowlist pm X) ops).alwaysAllow := by simpa using h
  simp [CheckPermission, h']

/-- Witness for C2: a Dangerous command added to the allowlist, followed
by enableDangerous, is still auto-allowed. -/
theorem c2_witness :
    PMOp.clear ∉ [PMOp.enable] ∧
      CheckPermission (applyOps (AddToAllowlist NewPermissionManager "sudo rm -rf /")
          [PMOp.enable]) "sudo rm -rf /" =
        ⟨true, false, "Previously approved by user"⟩ :=
  ⟨by decide, c2_amended_allowlist_overrides_classification _ _ _ (by decide)⟩

/-- Claim C4, counterexample: a Dangerous command previously added to
the allowlist is auto-allowed (allowed, no confirmation) even after
enableDangerous, so checkPermission can return (true, false, _) for a
Dangerous command in a reachable state. -/
theorem c4_counterexample :
    ClassifyCommand "sudo reboot" = RiskLevel.Dangerous ∧
      CheckPermission (EnableDangerous (AddToAllowlist NewPermissionManager "sudo reboot"))
          "sudo reboot" =
        ⟨true, false, "Previously approved by user"⟩ := by decide

/-- Claim C4 (amended): for a command that classifies Dangerous and is
not in the session allowlist, checkPermission after enableDangerous
returns not-allowed with needsConfirm, never (true, false, _). -/
theorem c4_amended_dangerous_requires_confirmation
    (pm : PermissionManager) (cmd : String)
    (hd : ClassifyCommand cmd = RiskLevel.Dangerous)
    (hmem : pm.alwaysAllow.contains cmd = false) :
    CheckPermission (EnableDangerous pm) cmd =
      ⟨false, true, "Dangerous command (requires explicit confirmation)"⟩ := by
  have h' : cmd ∉ pm.alwaysAllow := by simpa using hmem
  simp [CheckPermission, EnableDangerous, h', hd]

/-- Witness for C4: enableDangerous on the fresh manager, checked on a
Dangerous command. -/
theorem c4_witness :
    ClassifyCommand "sudo rm -rf /" = RiskLevel.Dangerous ∧
      CheckPermission (EnableDangerous NewPermissionManager) "sudo rm -rf /" =
        ⟨false, true, "Dangerous command (requires explicit confirmation)"⟩ :=
  ⟨by decide, c4_amended_dangerous_requires_confirmation _ _ (by decide) (by decide)⟩

/-- Claim C8: for every command and every policy state, checkPermission
never returns allowed and needsConfirm simultaneously. -/
theorem c8_never_allowed_and_needs_confirm (pm : PermissionManager) (cmd : String) :
    ((CheckPermission pm cmd).allowed && (CheckPermission pm cmd).needsConfirm) = false := by
  obtain ⟨al, de, ar⟩ := pm
  unfold CheckPermission
  by_cases h : cmd ∈ al
  · simp [h]
  · cases hc : ClassifyCommand cmd <;> cases de <;> cases ar <;> simp [h, hc]

/-! ## Claim theorems: classifier -/

/-- Claim C6: any command whose (trimmed) text matches one of the
dangerous patterns classifies Dangerous — the dangerous scan runs first
and decides the tier regardless of safe-token or safe-pattern matches. -/
theorem c6_dangerous_pattern_priority (cmd : String)
    (h : dangerousMatch (trimSpace cmd.toList) = true) :
    ClassifyCommand cmd = RiskLevel.Dangerous := by
  unfold ClassifyCommand classifyTrimmed
  rw [h]
  simp

/-- Witness for C6: "echo sudo" matches the sudo dangerous pattern while
its first token "echo" is in the safe-utility list; it still classifies
Dangerous. -/
theorem c6_witness :
    dangerousMatch (trimSpace (String.toList "echo sudo")) = true ∧
      ClassifyCommand "echo sudo" = RiskLevel.Dangerous :=
  ⟨by decide, c6_dangerous_pattern_priority "echo sudo" (by decide)⟩

/-- Claim C9: every command that is exactly an entry of the fixed
safe-utility list (up to surrounding whitespace, so first token equal to
the entry and no arguments) classifies Safe. -/
theorem c9_safe_utilities_classified_safe (cmd w : String)
    (hw : w ∈ safeCommands) (ht : trimSpace cmd.toList = w.toList) :
    ClassifyCommand cmd = RiskLevel.Safe := by
  unfold ClassifyCommand
  rw [ht]
  exact classifyTrimmed_safeCommands w hw

/-- Witness for C9: "  ls " trims to the safe-utility entry "ls" and
classifies Safe. -/
theorem c9_witness :
    "ls" ∈ safeCommands ∧ trimSpace (String.toList "  ls ") = String.toList "ls" ∧
      ClassifyCommand "  ls " = RiskLevel.Safe :=
  ⟨by decide, by decide, c9_safe_utilities_classified_safe "  ls " "ls" (by decide) (by decide)⟩

/-! ## Claim theorems: bounded executor -/

/-- Claim C5: Execute always returns a result with a nil function-level
error (so in particular never an error for a non-zero exit; the Go
function has a single `return result, nil`), and for a run that was
killed by the timeout the result carries a non-nil error, exit code -1,
and a recorded duration of at least the configured timeout. -/
theorem c5_execute_timeout_result :
    (∀ (o : RunOutcome) (cmd : String), (Execute o cmd).2 = none) ∧
      (∀ (o : RunOutcome) (cmd : String), TimedOut o →
        (Execute o cmd).1.error ≠ none ∧ (Execute o cmd).1.exitCode = -1 ∧
          executorTimeoutMs ≤ (Execute o cmd).1.durationMs) := by
  constructor
  · intro o cmd
    rfl
  · intro o cmd h
    obtain ⟨herr, hel⟩ := h
    refine ⟨?_, ?_, ?_⟩
    · rcases herr with h1 | h1 <;> simp [Execute, h1]
    · rcases herr with h1 | h1 <;> simp [Execute, h1]
    · simpa [Execute] using hel

/-- A concrete timed-out run outcome for the C5 witness. -/
def timeoutOutcome : RunOutcome := ⟨"", some GoError.other, 30000⟩

/-- Witness for C5 at a concrete timed-out outcome. -/
theorem c5_witness :
    (Execute timeoutOutcome "sleep 60").2 = none ∧
      ((Execute timeoutOutcome "sleep 60").1.error ≠ none ∧
        (Execute timeoutOutcome "sleep 60").1.exitCode = -1 ∧
        executorTimeoutMs ≤ (Execute timeoutOutcome "sleep 60").1.durationMs) :=
  ⟨c5_execute_timeout_result.1 timeoutOutcome "sleep 60",
   c5_execute_timeout_result.2 timeoutOutcome "sleep 60" ⟨Or.inr rfl, by decide⟩⟩

/-! ## Claim theorems: agent orchestrator -/

/-- One tool call appends exactly one tool message carrying its id iff
it is named "execute_command" and its arguments parse; otherwise it
appends nothing. -/
theorem processCall_msgs_roleId (env : Env) (pm : PermissionManager) (c : ToolCall) :
    (processCall env pm c).msgs.map (fun m => (m.role, m.toolCallID)) =
      (if c.name == "execute_command" && c.args.isSome then [("tool", c.id)] else []) := by
  rcases c with ⟨cid, cname, cargs⟩
  unfold processCall
  by_cases hn : (cname == "execute_command") = true
  · cases cargs with
    | none => simp [hn]
    | some a =>
      simp only [hn, if_pos, Bool.true_and, Option.isSome_some, if_true]
      split
      · simp [mkToolMsg]
      · split
        · split
          · simp [mkToolMsg]
          · simp [execStep, mkToolMsg]
        · simp [execStep, mkToolMsg]
  · simp [hn]

/-- An environment whose collaborators always approve and whose runs
succeed with empty output (used by concrete counterexamples). -/
def env0 : Env := ⟨fun _ _ => (true, false), fun _ => ⟨"", none, 0⟩⟩

/-- A tool call whose function name is not "execute_command" but whose
argument payload parses fine. -/
def webCall : ToolCall := ⟨"call-web", "web_search", some ⟨"ls", "look around"⟩⟩

/-- Claim C1, counterexample: a round returning one tool call with
well-formed arguments but a name other than "execute_command" appends
the assistant message and zero tool messages — not one per call as the
claim states (its only exclusion being malformed argument JSON). -/
theorem c1_counterexample :
    webCall.args.isSome = true ∧
      (sendWithTools env0 [ModelReply.success [webCall] "", ModelReply.success [] "done"]
          NewPermissionManager []).msgs = [mkAssistantMsg [webCall]] :=
  ⟨rfl, rfl⟩

/-- Claim C1 (amended): in each model round the tool messages appended
before the next model request are exactly one per tool call named
"execute_command" whose argument payload parses, in the order the calls
were received, each a "tool"-role message answering that call's id;
calls with any other function name (or unparseable arguments) are
skipped. -/
theorem c1_amended_round_tool_messages (env : Env) (pm : PermissionManager)
    (calls : List ToolCall) :
    (processCalls env pm calls).msgs.map (fun m => (m.role, m.toolCallID)) =
      (calls.filter (fun c => c.name == "execute_command" && c.args.isSome)).map
        (fun c => ("tool", c.id)) := by
  induction calls generalizing pm with
  | nil => rfl
  | cons c cs ih =>
    simp only [processCalls, List.map_append, List.filter_cons]
    rw [processCall_msgs_roleId, ih]
    by_cases h : (c.name == "execute_command" && c.args.isSome) = true
    · simp [h]
    · simp [h]

/-- A well-formed execute_command tool call for concrete scenarios. -/
def callLs : ToolCall := ⟨"call1", "execute_command", some ⟨"ls", "list files"⟩⟩

/-- Claim C10: a tool call whose function name is not "execute_command"
contributes nothing to the round: the tool messages, the permission
checks and the executor invocations are those of the same round without
it (the call is skipped and the remaining calls are still processed). -/
theorem c10_non_execute_command_calls_skipped (env : Env) (pm : PermissionManager)
    (pre post : List ToolCall) (c : ToolCall)
    (h : ¬ c.name = "execute_command") :
    processCalls env pm (pre ++ c :: post) = processCalls env pm (pre ++ post) := by
  induction pre generalizing pm with
  | nil =>
    have hc : processCall env pm c = ⟨pm, [], [], []⟩ := by
      unfold processCall
      rw [if_neg]
      simpa using h
    simp only [List.nil_append, processCalls, hc]
  | cons d ds ih =>
    simp only [List.cons_append, processCalls, List.append_eq]
    rw [ih]

/-- Witness for C10: prepending the non-execute_command call `webCall`
to a round leaves the round's processing unchanged. -/
theorem c10_witness :
    processCalls env0 NewPermissionManager [webCall, callLs] =
      processCalls env0 NewPermissionManager [callLs] :=
  c10_non_execute_command_calls_skipped env0 NewPermissionManager [] [callLs] webCall
    (by decide)

/-- The two-call scenario of claim C7: a round requesting call A
("git commit -m hi", which needs confirmation and is denied) and call B
("npm install express", which needs confirmation and is approved). -/
def callA : ToolCall := ⟨"idA", "execute_command", some ⟨"git commit -m hi", "commit the change"⟩⟩

def callB : ToolCall := ⟨"idB", "execute_command", some ⟨"npm install express", "install dependency"⟩⟩

/-- Environment for C7: the confirmation collaborator denies A and
approves B (without "always"); B's run succeeds with output
"installed". -/
def env7 : Env :=
  ⟨fun cmd _ => if cmd == "git commit -m hi" then (false, false) else (true, false),
   fun _ => ⟨"installed", none, 5⟩⟩

/-- Claim C7: in a round with calls [A, B] where the user denies A and
approves B, the conversation gains exactly one assistant message
carrying both calls followed by exactly two tool messages in order
[A-denied, B-result], and the executor runs exactly once, on B. -/
theorem c7_two_call_round_scenario :
    (sendWithTools env7 [ModelReply.success [callA, callB] "", ModelReply.success [] "Done"]
        NewPermissionManager [mkUserMsg "add express"]).msgs =
      [mkUserMsg "add express", mkAssistantMsg [callA, callB],
       mkToolMsg "idA" "Command execution denied by user",
       mkToolMsg "idB" "installed"] ∧
      (sendWithTools env7 [ModelReply.success [callA, callB] "", ModelReply.success [] "Done"]
          NewPermissionManager [mkUserMsg "add express"]).executed =
        ["npm install express"] :=
  ⟨rfl, rfl⟩

/-- Environment and script for the C3 failing input: the first model
round returns one successfully executed tool call, the second model
request fails. -/
def env3 : Env := ⟨fun _ _ => (true, false), fun _ => ⟨"ok", none, 10⟩⟩

def sysMsg : Message := ⟨"system", "system prompt", [], ""⟩

/-- Claim C3, failing input: when the transport error happens in the
second round of a turn, the rollback `s.messages[:len(s.messages)-1]`
removes only the round's tool message, leaving the user message and a
dangling assistant tool-call message — the conversation is not restored
to its pre-turn state [sysMsg]. -/
theorem c3_transport_error_rollback_bug :
    (sessionTurn env3 [ModelReply.success [callLs] "", ModelReply.failure]
        NewPermissionManager [sysMsg] "hi").2 =
      [sysMsg, mkUserMsg "hi", mkAssistantMsg [callLs]] ∧
      (sessionTurn env3 [ModelReply.success [callLs] "", ModelReply.failure]
          NewPermissionManager [sysMsg] "hi").2 ≠ [sysMsg] :=
  ⟨rfl, by decide⟩

end AzCli
